import Mathlib

/-!
Verification of the Yebelo trading-analytics repository: the Wilder RSI
streaming engine and the SSE fan-out relay of the Next.js dashboard.

The relay (`app/api/stream/route.ts`), the token-discovery route
(`app/api/tokens/route.ts`) and the dashboard page (`app/page.tsx`) are
embedded directly from the TypeScript source.  The Rust RSI calculator
(`rsi-calculator/src/main.rs`) is referenced by the repository's README and
setup scripts but its source is not present; its definitions below are
modelled from the specification and are marked as such.
-/

namespace Yebelo

/-! ## Wilder RSI estimator (engine side) -/

/-- Modelled from the spec: the repository's `rsi-calculator/src/main.rs`
(the Rust RSI engine) is not among the available sources, so the Smoothed
State of spec §3 is modelled from its words: per-instrument
`{avg_gain, avg_loss, warm, seen_count}` plus the previous price needed to
form deltas.  Prices are rationals standing for the engine's decimals. -/
structure RsiState where
  prevPrice : Option ℚ
  avgGain : ℚ
  avgLoss : ℚ
  warm : Bool
  seenCount : ℕ
deriving DecidableEq

/-- Modelled from the spec: initial per-instrument state, created lazily on
first trade (§3); no price seen, zero accumulators, cold. -/
def initState : RsiState :=
  { prevPrice := none, avgGain := 0, avgLoss := 0, warm := false, seenCount := 0 }

/-- Modelled from the spec: one estimator update for one price (§4.1, §4.2).
If a previous price exists the delta is classified into
`gain = max(delta,0)` / `loss = max(-delta,0)`; during warm-up
(`seen_count < W`) simple sums accumulate; at `seen_count = W` the averages
are initialised to the simple averages and `warm` becomes true; in the
steady phase Wilder smoothing `avg = (avg*(W-1) + x)/W` applies. -/
def updateRsi (W : ℕ) (s : RsiState) (price : ℚ) : RsiState :=
  match s.prevPrice with
  | none => { s with prevPrice := some price }
  | some prev =>
    let delta := price - prev
    let gain := max delta 0
    let loss := max (-delta) 0
    let n := s.seenCount + 1
    if n < W then
      { prevPrice := some price, avgGain := s.avgGain + gain,
        avgLoss := s.avgLoss + loss, warm := false, seenCount := n }
    else if n = W then
      { prevPrice := some price, avgGain := (s.avgGain + gain) / (W : ℚ),
        avgLoss := (s.avgLoss + loss) / (W : ℚ), warm := true, seenCount := n }
    else
      { prevPrice := some price,
        avgGain := (s.avgGain * ((W : ℚ) - 1) + gain) / (W : ℚ),
        avgLoss := (s.avgLoss * ((W : ℚ) - 1) + loss) / (W : ℚ),
        warm := true, seenCount := n }

/-- Modelled from the spec: RSI derivation (§4.2).  Both averages zero gives
50 by convention; zero loss with positive gain gives 100; otherwise
`RSI = 100 - 100/(1 + avg_gain/avg_loss)`. -/
def rsiValue (s : RsiState) : ℚ :=
  if s.avgLoss = 0 then
    if s.avgGain = 0 then 50 else 100
  else
    100 - 100 / (1 + s.avgGain / s.avgLoss)

/-- Qualitative signal attached to a Result Event. -/
inductive Signal where
  | oversold
  | neutral
  | overbought
deriving DecidableEq

/-- Modelled from the spec: signal classification (§4.2): below `lo` is
oversold, above `hi` is overbought, otherwise neutral. -/
def classify (lo hi r : ℚ) : Signal :=
  if r < lo then .oversold else if r > hi then .overbought else .neutral

/-- Default oversold threshold (§6 configuration surface). -/
def oversoldThreshold : ℚ := 30

/-- Default overbought threshold (§6 configuration surface). -/
def overboughtThreshold : ℚ := 70

/-- Modelled from the spec: one Ingestion Loop step for one price of one
instrument (§4.4): update the estimator and, only if the state is warm,
emit the (RSI value, signal) part of a Result Event.  Cold instruments
publish nothing. -/
def stepRsi (W : ℕ) (acc : RsiState × List (ℚ × Signal)) (price : ℚ) :
    RsiState × List (ℚ × Signal) :=
  let s := updateRsi W acc.1 price
  if s.warm then
    (s, acc.2 ++ [(rsiValue s, classify oversoldThreshold overboughtThreshold (rsiValue s))])
  else
    (s, acc.2)

/-- Modelled from the spec: feed a sequence of prices of a single instrument
through the estimator, returning the final Smoothed State and the emitted
Result-Event payloads in publish order. -/
def runRsi (W : ℕ) (prices : List ℚ) : RsiState × List (ℚ × Signal) :=
  prices.foldl (stepRsi W) (initState, [])

/-! ## Relay server (`app/api/stream/route.ts`) -/

/-- The fields of a well-formed Result Event as produced on the `rsi-data`
topic (spec §6 outbound log topic) and consumed by the stream route. -/
structure ResultEvent where
  token_address : String
  rsi_value : ℚ
  current_price : ℚ
  timestamp : String
  period : ℕ
  signal : String
deriving DecidableEq

/-- A Kafka message value as seen by `eachMessage`: either text that fails
`JSON.parse` or the serialization of a well-formed Result Event. -/
inductive PayloadVal where
  | malformed (raw : String)
  | wellFormed (ev : ResultEvent)
deriving DecidableEq

/-- A delivered Kafka message; `value` is `none` when `message.value` is
null. -/
structure KafkaMessage where
  value : Option PayloadVal
deriving DecidableEq

/-- A message carrying a well-formed Result Event. -/
def wfMsg (ev : ResultEvent) : KafkaMessage := { value := some (.wellFormed ev) }

/-- `JSON.stringify` of a parsed Result Event, keys in the object order the
producer uses on the `rsi-data` topic. -/
def jsonStringify (ev : ResultEvent) : String :=
  "\x7b\"token_address\":\"" ++ ev.token_address ++
  "\",\"rsi_value\":" ++ toString ev.rsi_value ++
  ",\"current_price\":" ++ toString ev.current_price ++
  ",\"timestamp\":\"" ++ ev.timestamp ++
  "\",\"period\":" ++ toString ev.period ++
  ",\"signal\":\"" ++ ev.signal ++ "\"\x7d"

/-- The SSE frame built at `route.ts` line 57:
`data: ${JSON.stringify(rsiData)}\n\n`. -/
def sseFrame (ev : ResultEvent) : String :=
  "data: " ++ jsonStringify ev ++ "\n\n"

/-- The `eachMessage` handler of the stream route for one session with
filter `selectedToken`: null values return, `JSON.parse` failures are
caught and logged, events failing
`selectedToken !== 'all' && rsiData.token_address !== selectedToken`
return, and matching events are framed and enqueued. -/
def handleMessage (selectedToken : String) (msg : KafkaMessage) : Option String :=
  match msg.value with
  | none => none
  | some (.malformed _) => none
  | some (.wellFormed ev) =>
    if selectedToken ≠ "all" ∧ ev.token_address ≠ selectedToken then none
    else some (sseFrame ev)

/-- The frames a session with filter `selectedToken` enqueues for a list of
delivered messages, in delivery order. -/
def sessionOutput (selectedToken : String) (msgs : List KafkaMessage) : List String :=
  msgs.filterMap (handleMessage selectedToken)

/-- `const selectedToken = searchParams.get('token') || 'all'`
(route.ts line 22): an absent parameter is `null` and an empty string is
falsy, so both fall back to `'all'`. -/
def effectiveToken (tokenParam : Option String) : String :=
  match tokenParam with
  | none => "all"
  | some s => if s = "" then "all" else s

/-- The consumer subscription options of `route.ts` lines 35-38. -/
structure SubscribeConfig where
  topic : String
  fromBeginning : Bool
deriving DecidableEq

/-- `consumer.subscribe({ topic: 'rsi-data', fromBeginning: false })`. -/
def streamSubscribe : SubscribeConfig :=
  { topic := "rsi-data", fromBeginning := false }

/-- Consumer-cursor semantics of the transport: with `fromBeginning` the
full topic history is replayed before live messages; without it only
messages published after the subscription are delivered. -/
def deliveredMessages (cfg : SubscribeConfig) (history live : List KafkaMessage) :
    List KafkaMessage :=
  if cfg.fromBeginning then history ++ live else live

/-- `controller.enqueue` at route.ts line 58: the frame is appended to the
stream's internal queue; there is no capacity check and no drop. -/
def enqueuePush (buf : List String) (frame : String) : List String :=
  buf ++ [frame]

/-- The queue a stalled consumer's stream holds after a burst of pushes:
every frame is enqueued and none is ever read off. -/
def stalledSessionBuffer (frames : List String) : List String :=
  frames.foldl enqueuePush []

/-! ## Token-discovery route (`app/api/tokens/route.ts`) -/

/-- A `trade-data` message value as read by the tokens route: either text
failing `JSON.parse`, or a parsed trade whose `token_address` field may be
absent. -/
inductive TradePayload where
  | malformed (raw : String)
  | parsed (token_address : Option String)
deriving DecidableEq

/-- A delivered message on the `trade-data` topic. -/
structure TradeMessage where
  value : Option TradePayload
deriving DecidableEq

/-- `const maxMessages = 100` of the tokens route. -/
def maxMessages : ℕ := 100

/-- Accumulator of the tokens route: the `tokens` set (insertion order) and
`messageCount`. -/
structure TokensState where
  tokens : List String
  messageCount : ℕ
deriving DecidableEq

/-- One `eachMessage` step of the tokens route: after `maxMessages`
successfully parsed messages the consumer has disconnected and nothing
further is processed; null values return; parse failures are caught and
logged; a truthy `token_address` is added to the set; `messageCount`
increments for every successfully parsed message. -/
def tokensStep (st : TokensState) (m : TradeMessage) : TokensState :=
  if st.messageCount ≥ maxMessages then st
  else
    match m.value with
    | none => st
    | some (.malformed _) => st
    | some (.parsed tok) =>
      let tokens :=
        match tok with
        | some t =>
          if t = "" then st.tokens
          else if t ∈ st.tokens then st.tokens else st.tokens ++ [t]
        | none => st.tokens
      { tokens := tokens, messageCount := st.messageCount + 1 }

/-- The token list the route returns for a list of delivered messages. -/
def collectTokens (msgs : List TradeMessage) : List String :=
  (msgs.foldl tokensStep { tokens := [], messageCount := 0 }).tokens

/-! ## Dashboard chart buffer (`app/page.tsx`) -/

/-- A chart data point as built in `connectToStream` (page.tsx 104-108). -/
structure ChartPoint where
  time : String
  price : ℚ
  rsi : ℚ
deriving DecidableEq

/-- The chart retains the last 50 points (page.tsx line 113). -/
def chartCap : ℕ := 50

/-- The `setChartData` updater of page.tsx lines 110-114:
`[...prev, newDataPoint].slice(-50)`.  `slice(-n)` keeps the last
`min(n, length)` elements, i.e. drops `length - n` from the front. -/
def updateChart (prev : List ChartPoint) (p : ChartPoint) : List ChartPoint :=
  let updated := prev ++ [p]
  updated.drop (updated.length - chartCap)

/-- The chart data after a sequence of received stream events, starting
from the initial empty list. -/
def chartAfter (pts : List ChartPoint) : List ChartPoint :=
  pts.foldl updateChart []

/-- A sample Result Event used to instantiate universally quantified
statements at a concrete input. -/
def sampleEvent : ResultEvent :=
  { token_address := "t1", rsi_value := 50, current_price := 1,
    timestamp := "2025-01-01T00:00:00Z", period := 14, signal := "neutral" }

/-- A sample chart point used to instantiate universally quantified
statements at a concrete input. -/
def samplePoint : ChartPoint :=
  { time := "00:00:00", price := 1, rsi := 50 }

/-! ## Engine invariants -/

/-- States reachable by the estimator: non-negative smoothed averages and,
once warm, at least `W` deltas seen. -/
def GoodState (W : ℕ) (s : RsiState) : Prop :=
  0 ≤ s.avgGain ∧ 0 ≤ s.avgLoss ∧ (s.warm = true → W ≤ s.seenCount)

theorem goodState_initState (W : ℕ) : GoodState W initState := by
  refine ⟨le_refl 0, le_refl 0, ?_⟩
  intro h
  simp [initState] at h

theorem goodState_updateRsi (W : ℕ) (s : RsiState) (p : ℚ)
    (hs : GoodState W s) : GoodState W (updateRsi W s p) := by
  obtain ⟨pp, ag, al, w, n⟩ := s
  obtain ⟨hg, hl, hw⟩ := hs
  simp only at hg hl hw
  have hWc : (0 : ℚ) ≤ (W : ℚ) := Nat.cast_nonneg W
  cases pp with
  | none => exact ⟨hg, hl, hw⟩
  | some prev =>
    have hgain : (0 : ℚ) ≤ max (p - prev) 0 := le_max_right _ _
    have hloss : (0 : ℚ) ≤ max (-(p - prev)) 0 := le_max_right _ _
    by_cases h1 : n + 1 < W
    · simp only [updateRsi, if_pos h1]
      exact ⟨add_nonneg hg hgain, add_nonneg hl hloss, by intro h; simp at h⟩
    · by_cases h2 : n + 1 = W
      · simp only [updateRsi, if_neg h1, if_pos h2]
        exact ⟨div_nonneg (add_nonneg hg hgain) hWc,
          div_nonneg (add_nonneg hl hloss) hWc, fun _ => by dsimp only; omega⟩
      · simp only [updateRsi, if_neg h1, if_neg h2]
        rcases Nat.eq_zero_or_pos W with hW | hW
        · subst hW
          exact ⟨by simp, by simp, fun _ => by dsimp only; omega⟩
        · have hW1 : (0 : ℚ) ≤ (W : ℚ) - 1 := by
            have h1W : (1 : ℚ) ≤ (W : ℚ) := by exact_mod_cast hW
            linarith
          exact ⟨div_nonneg (add_nonneg (mul_nonneg hg hW1) hgain) hWc,
            div_nonneg (add_nonneg (mul_nonneg hl hW1) hloss) hWc,
            fun _ => by dsimp only; omega⟩

theorem warm_updateRsi_rev (W : ℕ) (s : RsiState) (p : ℚ)
    (hs : GoodState W s) (h : (updateRsi W s p).warm = false) :
    s.warm = false := by
  obtain ⟨pp, ag, al, w, n⟩ := s
  obtain ⟨-, -, hw⟩ := hs
  simp only at hw
  cases w with
  | false => rfl
  | true =>
    exfalso
    have hWle : W ≤ n := hw rfl
    cases pp with
    | none => simp [updateRsi] at h
    | some prev =>
      have h1 : ¬ (n + 1 < W) := by omega
      by_cases h2 : n + 1 = W
      · simp only [updateRsi, if_neg h1, if_pos h2] at h
        simp at h
      · simp only [updateRsi, if_neg h1, if_neg h2] at h
        simp at h

theorem rsiValue_bounds (s : RsiState) (hg : 0 ≤ s.avgGain)
    (hl : 0 ≤ s.avgLoss) : 0 ≤ rsiValue s ∧ rsiValue s ≤ 100 := by
  unfold rsiValue
  by_cases h0 : s.avgLoss = 0
  · by_cases h1 : s.avgGain = 0
    · rw [if_pos h0, if_pos h1]; norm_num
    · rw [if_pos h0, if_neg h1]; norm_num
  · have hlpos : 0 < s.avgLoss := lt_of_le_of_ne hl (Ne.symm h0)
    have hrs : 0 ≤ s.avgGain / s.avgLoss := div_nonneg hg hl
    have hden : (1 : ℚ) ≤ 1 + s.avgGain / s.avgLoss := by linarith
    have hle : (100 : ℚ) / (1 + s.avgGain / s.avgLoss) ≤ 100 :=
      div_le_self (by norm_num) hden
    have hpos : (0 : ℚ) < 100 / (1 + s.avgGain / s.avgLoss) :=
      div_pos (by norm_num) (by linarith)
    simp [h0]
    constructor <;> linarith

theorem foldl_stepRsi_spec (W : ℕ) (prices : List ℚ) :
    ∀ (s : RsiState) (out : List (ℚ × Signal)), GoodState W s →
      GoodState W (prices.foldl (stepRsi W) (s, out)).1
      ∧ (∀ e ∈ (prices.foldl (stepRsi W) (s, out)).2,
          e ∈ out ∨ (0 ≤ e.1 ∧ e.1 ≤ 100))
      ∧ ((prices.foldl (stepRsi W) (s, out)).1.warm = false →
          (prices.foldl (stepRsi W) (s, out)).2 = out ∧ s.warm = false) := by
  induction prices with
  | nil =>
    intro s out hs
    exact ⟨hs, fun e he => Or.inl he, fun h => ⟨rfl, h⟩⟩
  | cons p ps ih =>
    intro s out hs
    have hs' : GoodState W (updateRsi W s p) := goodState_updateRsi W s p hs
    simp only [List.foldl_cons]
    by_cases hwarm : (updateRsi W s p).warm
    · have hstep : stepRsi W (s, out) p
          = (updateRsi W s p,
             out ++ [(rsiValue (updateRsi W s p),
                      classify oversoldThreshold overboughtThreshold
                        (rsiValue (updateRsi W s p)))]) := by
        simp [stepRsi, hwarm]
      rw [hstep]
      obtain ⟨hgood, hmem, hcold⟩ := ih (updateRsi W s p) (out ++ [_]) hs'
      refine ⟨hgood, ?_, ?_⟩
      · intro e he
        rcases hmem e he with h | h
        · rcases List.mem_append.1 h with h2 | h2
          · exact Or.inl h2
          · right
            have heq : e = (rsiValue (updateRsi W s p),
                classify oversoldThreshold overboughtThreshold
                  (rsiValue (updateRsi W s p))) := by
              simpa using h2
            rw [heq]
            exact rsiValue_bounds _ hs'.1 hs'.2.1
        · exact Or.inr h
      · intro hcoldfin
        exact absurd hwarm (by simp [(hcold hcoldfin).2])
    · have hstep : stepRsi W (s, out) p = (updateRsi W s p, out) := by
        simp [stepRsi, hwarm]
      rw [hstep]
      obtain ⟨hgood, hmem, hcold⟩ := ih (updateRsi W s p) out hs'
      refine ⟨hgood, hmem, ?_⟩
      intro hcoldfin
      refine ⟨(hcold hcoldfin).1, ?_⟩
      exact warm_updateRsi_rev W s p hs (by simpa using hwarm)

/-- C1: for every price sequence of a single instrument, every Result-Event
payload the engine emits carries an RSI value in the closed interval
[0,100], and as long as the Smoothed State has not become warm no
Result-Event payload is published at all. -/
theorem rsi_output_range_and_cold_silence (W : ℕ) (prices : List ℚ) :
    (∀ e ∈ (runRsi W prices).2, 0 ≤ e.1 ∧ e.1 ≤ 100)
    ∧ ((runRsi W prices).1.warm = false → (runRsi W prices).2 = []) := by
  have h := foldl_stepRsi_spec W prices initState [] (goodState_initState W)
  refine ⟨fun e he => ?_, fun hw => (h.2.2 hw).1⟩
  rcases h.2.1 e he with h0 | h0
  · exact absurd h0 (List.not_mem_nil e)
  · exact h0

/-- C1 witness: at `W = 2` the run over `[1,2,3]` emits the payload
`(100, overbought)`, which the theorem places in [0,100]; and the run over
the single price `[1]` is cold and has published nothing. -/
theorem rsi_output_range_and_cold_silence_witness :
    (0 ≤ ((100 : ℚ), Signal.overbought).1
      ∧ ((100 : ℚ), Signal.overbought).1 ≤ 100)
    ∧ (runRsi 2 ([1] : List ℚ)).2 = [] := by
  constructor
  · exact (rsi_output_range_and_cold_silence 2 [1, 2, 3]).1
      ((100 : ℚ), Signal.overbought)
      (by norm_num [runRsi, stepRsi, updateRsi, initState, rsiValue, classify,
        oversoldThreshold, overboughtThreshold, max_def])
  · exact (rsi_output_range_and_cold_silence 2 [1]).2 rfl

/-! ## Flat price sequences -/

/-- Invariant of the estimator along a constant price sequence: both
smoothed averages are exactly zero and the previous price, if any, is the
constant. -/
def FlatState (c : ℚ) (s : RsiState) : Prop :=
  s.avgGain = 0 ∧ s.avgLoss = 0 ∧ (s.prevPrice = none ∨ s.prevPrice = some c)

theorem flatState_initState (c : ℚ) : FlatState c initState :=
  ⟨rfl, rfl, Or.inl rfl⟩

theorem flatState_updateRsi (W : ℕ) (c : ℚ) (s : RsiState)
    (hs : FlatState c s) : FlatState c (updateRsi W s c) := by
  obtain ⟨pp, ag, al, w, n⟩ := s
  obtain ⟨hg, hl, hp⟩ := hs
  simp only at hg hl hp
  subst hg hl
  cases pp with
  | none => exact ⟨rfl, rfl, Or.inr rfl⟩
  | some prev =>
    have hprev : prev = c := by
      rcases hp with h | h
      · exact absurd h (by simp)
      · exact (Option.some.injEq _ _ ▸ h.symm : c = prev).symm
    subst hprev
    by_cases h1 : n + 1 < W
    · simp only [updateRsi, if_pos h1]
      exact ⟨by simp, by simp, Or.inr rfl⟩
    · by_cases h2 : n + 1 = W
      · simp only [updateRsi, if_neg h1, if_pos h2]
        exact ⟨by simp, by simp, Or.inr rfl⟩
      · simp only [updateRsi, if_neg h1, if_neg h2]
        exact ⟨by simp, by simp, Or.inr rfl⟩

theorem rsiValue_flat (s : RsiState) (hg : s.avgGain = 0)
    (hl : s.avgLoss = 0) : rsiValue s = 50 := by
  unfold rsiValue
  rw [if_pos hl, if_pos hg]

theorem foldl_stepRsi_flat (W : ℕ) (c : ℚ) (n : ℕ) :
    ∀ (s : RsiState) (out : List (ℚ × Signal)), FlatState c s →
      (∀ e ∈ out, e.1 = 50 ∧ e.2 = Signal.neutral) →
      FlatState c ((List.replicate n c).foldl (stepRsi W) (s, out)).1
      ∧ ∀ e ∈ ((List.replicate n c).foldl (stepRsi W) (s, out)).2,
          e.1 = 50 ∧ e.2 = Signal.neutral := by
  induction n with
  | zero => intro s out hs hout; exact ⟨hs, hout⟩
  | succ m ih =>
    intro s out hs hout
    rw [List.replicate_succ, List.foldl_cons]
    have hs' : FlatState c (updateRsi W s c) := flatState_updateRsi W c s hs
    have hval : rsiValue (updateRsi W s c) = 50 :=
      rsiValue_flat _ hs'.1 hs'.2.1
    have hsig : classify oversoldThreshold overboughtThreshold
        (rsiValue (updateRsi W s c)) = Signal.neutral := by
      rw [hval]
      norm_num [classify, oversoldThreshold, overboughtThreshold]
    by_cases hwarm : (updateRsi W s c).warm
    · have hstep : stepRsi W (s, out) c
          = (updateRsi W s c,
             out ++ [(rsiValue (updateRsi W s c),
                      classify oversoldThreshold overboughtThreshold
                        (rsiValue (updateRsi W s c)))]) := by
        simp [stepRsi, hwarm]
      rw [hstep]
      refine ih (updateRsi W s c) _ hs' ?_
      intro e he
      rcases List.mem_append.1 he with h | h
      · exact hout e h
      · have heq : e = (rsiValue (updateRsi W s c),
            classify oversoldThreshold overboughtThreshold
              (rsiValue (updateRsi W s c))) := by simpa using h
        rw [heq]
        exact ⟨hval, hsig⟩
    · have hstep : stepRsi W (s, out) c = (updateRsi W s c, out) := by
        simp [stepRsi, hwarm]
      rw [hstep]
      exact ih (updateRsi W s c) out hs' hout

/-- C3: a price sequence whose consecutive deltas are all zero (a constant
sequence) keeps both smoothed averages at zero, so every emitted
Result-Event payload carries RSI exactly 50 with a neutral signal. -/
theorem flat_sequence_rsi_fifty (W n : ℕ) (c : ℚ) :
    ∀ e ∈ (runRsi W (List.replicate n c)).2,
      e.1 = 50 ∧ e.2 = Signal.neutral := by
  intro e he
  exact (foldl_stepRsi_flat W c n initState [] (flatState_initState c)
    (fun e h => absurd h (List.not_mem_nil e))).2 e he

/-- C3 witness: with `W = 1` the flat sequence `[5, 5]` emits one payload,
and the theorem evaluates it to RSI 50 with a neutral signal. -/
theorem flat_sequence_rsi_fifty_witness :
    ((50 : ℚ), Signal.neutral).1 = 50
    ∧ ((50 : ℚ), Signal.neutral).2 = Signal.neutral := by
  exact flat_sequence_rsi_fifty 1 2 5 ((50 : ℚ), Signal.neutral)
    (by norm_num [runRsi, stepRsi, updateRsi, initState, rsiValue, classify,
      oversoldThreshold, overboughtThreshold, max_def, List.replicate])

/-! ## The literal warm-up sequences of spec §8 -/

/-- The literal 15-price strictly increasing sequence `[1, 2, ..., 15]`. -/
def upPrices : List ℚ :=
  [1, 2, 3, 4, 5, 6, 7, 8, 9, 10, 11, 12, 13, 14, 15]

/-- The first 14 prices of `upPrices`. -/
def upPricesHead : List ℚ :=
  [1, 2, 3, 4, 5, 6, 7, 8, 9, 10, 11, 12, 13, 14]

/-- The strictly decreasing full-window sequence `[15, 14, ..., 1]`. -/
def downPrices : List ℚ :=
  [15, 14, 13, 12, 11, 10, 9, 8, 7, 6, 5, 4, 3, 2, 1]

/-- C4: with period 14, after the first 14 of the prices `[1..15]` the state
is still cold; at the 15th price it is warm, and the single emitted payload
is RSI 100 classified overbought; the strictly decreasing sequence
`[15..1]` symmetrically emits RSI 0. -/
theorem warm_at_fifteenth_price_extremes :
    (runRsi 14 upPricesHead).1.warm = false
    ∧ (runRsi 14 upPricesHead).2 = []
    ∧ (runRsi 14 upPrices).1.warm = true
    ∧ (runRsi 14 upPrices).2 = [((100 : ℚ), Signal.overbought)]
    ∧ (runRsi 14 downPrices).2 = [((0 : ℚ), Signal.oversold)] := by
  refine ⟨rfl, rfl, rfl, ?_, ?_⟩ <;>
    norm_num [upPrices, downPrices, runRsi, stepRsi, updateRsi, initState,
      rsiValue, classify, oversoldThreshold, overboughtThreshold, max_def]

/-! ## Relay filtering -/

theorem sessionOutput_map_wfMsg (tok : String) (evs : List ResultEvent) :
    sessionOutput tok (evs.map wfMsg)
      = (evs.filter fun ev => tok == "all" || ev.token_address == tok).map sseFrame := by
  induction evs with
  | nil => rfl
  | cons ev evs ih =>
    by_cases htok : tok = "all"
    · subst htok
      simp [sessionOutput, handleMessage, wfMsg, List.filter_cons] at ih ⊢
      exact ih
    · by_cases haddr : ev.token_address = tok
      · simp [sessionOutput, handleMessage, wfMsg, List.filter_cons,
          htok, haddr] at ih ⊢
        exact ih
      · simp [sessionOutput, handleMessage, wfMsg, List.filter_cons,
          htok, haddr] at ih ⊢
        exact ih

/-- C2: a session's output for a list of published Result Events is exactly
the SSE frames of those events passing the filter check
(`filter = "all"` or `filter = instrument`), kept in publish order; in
particular a session with filter `"all"` receives every published event in
publish order, and a session with any other filter receives only frames of
events whose instrument equals its filter. -/
theorem relay_filter_exact (tok : String) (evs : List ResultEvent) :
    sessionOutput tok (evs.map wfMsg)
      = (evs.filter fun ev => tok == "all" || ev.token_address == tok).map sseFrame
    ∧ sessionOutput "all" (evs.map wfMsg) = evs.map sseFrame
    ∧ ∀ f ∈ sessionOutput tok (evs.map wfMsg), ∃ ev ∈ evs,
        f = sseFrame ev ∧ (tok = "all" ∨ ev.token_address = tok) := by
  refine ⟨sessionOutput_map_wfMsg tok evs, ?_, ?_⟩
  · rw [sessionOutput_map_wfMsg]
    simp
  · intro f hf
    rw [sessionOutput_map_wfMsg] at hf
    rcases List.mem_map.1 hf with ⟨ev, hev, hfr⟩
    rcases List.mem_filter.1 hev with ⟨hmem, hcond⟩
    refine ⟨ev, hmem, hfr.symm, ?_⟩
    rcases Bool.or_eq_true_iff.1 hcond with h | h
    · exact Or.inl (by simpa using beq_iff_eq.1 h)
    · exact Or.inr (beq_iff_eq.1 h)

/-- C2 witness: with filter `"t1"` and the single published event
`sampleEvent` (whose instrument is `"t1"`), the frame the session receives
is `sseFrame sampleEvent` and it comes from an event matching the filter. -/
theorem relay_filter_exact_witness :
    ∃ ev ∈ [sampleEvent], sseFrame sampleEvent = sseFrame ev
      ∧ ("t1" = "all" ∨ ev.token_address = "t1") := by
  exact (relay_filter_exact "t1" [sampleEvent]).2.2 (sseFrame sampleEvent)
    (by simp [sessionOutput, handleMessage, wfMsg, sampleEvent])

/-- C9: an absent or empty `token` query parameter yields the filter
`"all"`, and such a session receives every published Result Event. -/
theorem empty_token_behaves_as_all (p : Option String)
    (h : p = none ∨ p = some "") :
    effectiveToken p = "all"
    ∧ ∀ evs : List ResultEvent,
        sessionOutput (effectiveToken p) (evs.map wfMsg) = evs.map sseFrame := by
  have hall : effectiveToken p = "all" := by
    rcases h with h | h <;> subst h <;> simp [effectiveToken]
  refine ⟨hall, fun evs => ?_⟩
  rw [hall, sessionOutput_map_wfMsg]
  simp

/-- C9 witness: an absent `token` parameter gives filter `"all"`, and the
session receives the frame of every event of `[sampleEvent]`. -/
theorem empty_token_behaves_as_all_witness :
    effectiveToken none = "all"
    ∧ sessionOutput (effectiveToken none) ([sampleEvent].map wfMsg)
        = [sampleEvent].map sseFrame := by
  exact ⟨(empty_token_behaves_as_all none (Or.inl rfl)).1,
    (empty_token_behaves_as_all none (Or.inl rfl)).2 [sampleEvent]⟩

/-- C8: every frame a session ever enqueues is exactly
`"data: "` followed by the JSON serialization of some Result Event followed
by `"\n\n"`; nothing else is ever delivered. -/
theorem frames_are_wellformed_sse (tok : String) (msgs : List KafkaMessage) :
    ∀ f ∈ sessionOutput tok msgs, ∃ ev : ResultEvent,
      f = "data: " ++ jsonStringify ev ++ "\n\n" := by
  intro f hf
  rcases List.mem_filterMap.1 hf with ⟨m, -, hm⟩
  rcases m with ⟨v⟩
  cases v with
  | none => simp [handleMessage] at hm
  | some pv =>
    cases pv with
    | malformed raw => simp [handleMessage] at hm
    | wellFormed ev =>
      refine ⟨ev, ?_⟩
      by_cases hcond : tok ≠ "all" ∧ ev.token_address ≠ tok
      · simp [handleMessage, hcond] at hm
      · simp [handleMessage, hcond, sseFrame] at hm
        exact hm.symm

/-- C8 witness: the frame delivered for `sampleEvent` on an `"all"` session
is exactly the SSE framing of some event's JSON. -/
theorem frames_are_wellformed_sse_witness :
    ∃ ev : ResultEvent,
      sseFrame sampleEvent = "data: " ++ jsonStringify ev ++ "\n\n" := by
  exact frames_are_wellformed_sse "all" [wfMsg sampleEvent]
    (sseFrame sampleEvent)
    (by simp [sessionOutput, handleMessage, wfMsg])

/-! ## Subscription cursor -/

/-- C5: the stream route subscribes with `fromBeginning: false` on the
`rsi-data` topic, so a new subscriber session's cursor starts at the
latest position and only messages published after the subscription are
delivered to it. -/
theorem session_cursor_starts_latest :
    streamSubscribe.fromBeginning = false
    ∧ streamSubscribe.topic = "rsi-data"
    ∧ ∀ history live : List KafkaMessage,
        deliveredMessages streamSubscribe history live = live := by
  refine ⟨rfl, rfl, fun history live => ?_⟩
  simp [deliveredMessages, streamSubscribe]

/-! ## Backpressure -/

theorem foldl_enqueuePush (frames : List String) :
    ∀ init : List String, frames.foldl enqueuePush init = init ++ frames := by
  induction frames with
  | nil => intro init; simp
  | cons f fs ih =>
    intro init
    rw [List.foldl_cons]
    rw [ih (enqueuePush init f)]
    simp [enqueuePush]

/-- C6 counterexample: there is no buffer capacity `N` for which a stalled
session's buffer, after a burst longer than `N`, holds only the most
recent `N` frames — the stream route enqueues unconditionally, so for
every candidate `N` a burst of `N+1` frames leaves all `N+1` in the
buffer. -/
theorem no_bounded_drop_oldest_buffer :
    ¬ ∃ N : ℕ, ∀ frames : List String, N < frames.length →
        stalledSessionBuffer frames = frames.drop (frames.length - N) := by
  rintro ⟨N, h⟩
  have h1 := h (List.replicate (N + 1) "x") (by simp)
  rw [stalledSessionBuffer, foldl_enqueuePush, List.nil_append] at h1
  have h2 := congrArg List.length h1
  simp at h2

/-- C6 amended: each session's outbound buffer is unbounded — every
matching frame is enqueued with no capacity check, nothing is ever
dropped, and after a burst of M pushes to a stalled consumer the buffer
holds all M frames in arrival order (the push itself never blocks the
shared reader). -/
theorem session_buffer_keeps_every_frame (frames : List String) :
    stalledSessionBuffer frames = frames
    ∧ (stalledSessionBuffer frames).length = frames.length := by
  rw [stalledSessionBuffer, foldl_enqueuePush, List.nil_append]
  exact ⟨rfl, rfl⟩

/-! ## Malformed messages are skipped -/

theorem tokensStep_malformed (st : TokensState) (raw : String) :
    tokensStep st { value := some (.malformed raw) } = st := by
  unfold tokensStep
  split <;> rfl

/-- C7: a message whose payload fails to parse (or whose value is null)
contributes nothing and does not disturb any other message: the stream
route's session output and the tokens route's collected token list over
`pre ++ [bad] ++ post` equal those over `pre` and `post` alone. -/
theorem malformed_message_skipped (tok : String)
    (pre post : List KafkaMessage) (raw : String)
    (tpre tpost : List TradeMessage) (traw : String) :
    sessionOutput tok (pre ++ ({ value := some (.malformed raw) } : KafkaMessage) :: post)
      = sessionOutput tok pre ++ sessionOutput tok post
    ∧ sessionOutput tok (pre ++ ({ value := none } : KafkaMessage) :: post)
      = sessionOutput tok pre ++ sessionOutput tok post
    ∧ collectTokens (tpre ++ ({ value := some (.malformed traw) } : TradeMessage) :: tpost)
      = collectTokens (tpre ++ tpost) := by
  refine ⟨?_, ?_, ?_⟩
  · simp [sessionOutput, List.filterMap_append, handleMessage]
  · simp [sessionOutput, List.filterMap_append, handleMessage]
  · simp [collectTokens, List.foldl_append, tokensStep_malformed]

/-! ## Chart buffer -/

theorem updateChart_suffix (l : List ChartPoint) (p : ChartPoint) :
    updateChart (l.drop (l.length - chartCap)) p
      = (l ++ [p]).drop ((l ++ [p]).length - chartCap) := by
  unfold updateChart
  dsimp only
  simp only [chartCap]
  by_cases h : l.length ≤ 50
  · rw [Nat.sub_eq_zero_of_le h, List.drop_zero]
  · push_neg at h
    have hlen : (l.drop (l.length - 50)).length = 50 := by
      rw [List.length_drop]
      omega
    rw [List.length_append, hlen, List.length_append]
    simp only [List.length_singleton]
    rw [show 50 + 1 - 50 = 1 from rfl]
    rw [List.drop_append_of_le_length (by omega),
      List.drop_append_of_le_length (by omega)]
    rw [List.drop_drop]
    have hidx : l.length - 50 + 1 = l.length + 1 - 50 := by omega
    rw [hidx]

theorem chartAfter_eq_suffix (pts : List ChartPoint) :
    chartAfter pts = pts.drop (pts.length - chartCap) := by
  induction pts using List.reverseRecOn with
  | nil => rfl
  | append_singleton qs p ih =>
    unfold chartAfter
    rw [List.foldl_append, List.foldl_cons, List.foldl_nil]
    rw [show qs.foldl updateChart [] = chartAfter qs from rfl, ih]
    exact updateChart_suffix qs p

/-- C10: after any sequence of received stream events the chart-data list
is exactly the trailing 50 received points in arrival order (all of them
when fewer than 50 arrived), hence its length never exceeds 50; appending
to a full list of 50 drops the oldest point. -/
theorem chart_buffer_bounded (pts : List ChartPoint) :
    chartAfter pts = pts.drop (pts.length - 50)
    ∧ (chartAfter pts).length ≤ 50
    ∧ ∀ (prev : List ChartPoint) (p : ChartPoint), prev.length = 50 →
        updateChart prev p = prev.drop 1 ++ [p] := by
  have h := chartAfter_eq_suffix pts
  refine ⟨h, ?_, ?_⟩
  · rw [h, List.length_drop]
    have : chartCap = 50 := rfl
    omega
  · intro prev p hprev
    unfold updateChart
    dsimp only
    rw [List.length_append, hprev]
    simp only [List.length_singleton]
    rw [show 50 + 1 - chartCap = 1 from rfl]
    rw [List.drop_append_of_le_length (by omega)]

/-- C10 witness: appending to a full chart of 50 identical points keeps 49
of them plus the new point — the oldest is discarded. -/
theorem chart_buffer_bounded_witness :
    updateChart (List.replicate 50 samplePoint) samplePoint
      = List.replicate 49 samplePoint ++ [samplePoint] := by
  have h := (chart_buffer_bounded []).2.2 (List.replicate 50 samplePoint)
    samplePoint (by simp)
  rw [h]
  rfl

end Yebelo
